import Mathlib

/-!
Verification development for the drawio-supersearch repository.

We shallowly embed the core pipeline of the repository:
* the payload codec of `src/extractor/drawio_tools.py`
  (`encode_diagram_data` / `decode_diagram_data`);
* the indexer `index_all_diagrams` of `src/browser/app.py`
  (metadata normalization, relational + full-text stores, application links);
* the `search` route of `src/browser/app.py`.

Python strings are modelled as lists of Unicode code points (`Str`), and
byte strings as lists of naturals below 256.  Stateful code (the SQLite
database and the Whoosh index) is modelled by explicit state passing.
External library calls (zlib's raw-deflate compressor, Whoosh's query
matcher) are parameters of the embedding, constrained only by their
documented contracts where a theorem needs them.
-/

/-- Python `str`, as a list of Unicode code points. -/
abbrev Str := List Nat

/-- Code points of a Lean string literal (all our literals are ASCII). -/
def lit (s : String) : Str := s.data.map Char.toNat

/-- Model of Python `str.lower` on the ASCII range (the repository's
application names and the inputs we evaluate on are ASCII; the full
Unicode case table is out of scope of this embedding). -/
def asciiLower (s : Str) : Str :=
  s.map fun c => if 65 ≤ c ∧ c ≤ 90 then c + 32 else c

/-- Python `in` on strings: substring test. -/
def pyIn (needle haystack : Str) : Bool := decide (needle <:+: haystack)

/-- ASCII whitespace, as stripped by Python `str.strip()` (the Unicode
whitespace set restricted to the ASCII range). -/
def isPySpace (c : Nat) : Bool := c = 32 ∨ c = 9 ∨ c = 10 ∨ c = 11 ∨ c = 12 ∨ c = 13

/-- Model of Python `str.strip()`. -/
def pyStrip (s : Str) : Str :=
  ((s.dropWhile isPySpace).reverse.dropWhile isPySpace).reverse

/-- Python `s.split(sep)` for a one-character separator (keeps empty parts). -/
def splitOn (sep : Nat) : Str → List Str
  | [] => [[]]
  | c :: rest =>
    match splitOn sep rest with
    | [] => [[]]
    | h :: t => if c = sep then [] :: h :: t else (c :: h) :: t

/-- Python `s.split(sep)[0]`: the prefix before the first separator. -/
def splitHead (sep : Nat) (s : Str) : Str := s.takeWhile (· ≠ sep)

/-- Python `s.split(sep)[-1]`: the part after the last separator. -/
def splitLast (sep : Nat) (s : Str) : Str := (splitOn sep s).getLastD []

/-- Worker for `pyReplace`, structurally recursive on a fuel argument so
that it reduces in the kernel; each step consumes at least one character,
so fuel equal to the string length never runs out (the `0, s => s`
branch is unreachable from `pyReplace`). -/
def pyReplaceGo (pat repl : Str) : Nat → Str → Str
  | _, [] => []
  | 0, s => s
  | fuel + 1, c :: rest =>
    if pat.isPrefixOf (c :: rest) ∧ pat ≠ [] then
      repl ++ pyReplaceGo pat repl fuel ((c :: rest).drop pat.length)
    else
      c :: pyReplaceGo pat repl fuel rest

/-- Model of Python `str.replace(pat, repl)` (left-to-right,
non-overlapping; an empty pattern never matches here, as in the
repository all call sites use a non-empty pattern). -/
def pyReplace (pat repl s : Str) : Str := pyReplaceGo pat repl s.length s

/-- Python `str.replace` with a single-character pattern and replacement
(used for `'+'` → `' '` in the page-title parse). -/
def replaceChar (a b : Nat) (s : Str) : Str := s.map fun c => if c = a then b else c

/-! ## Payload codec (`src/extractor/drawio_tools.py`)

`encode_diagram_data` is `quote(data, safe="~()*!.'")`, then UTF-8
encoding, then raw deflate, then base64.  `decode_diagram_data` is the
inverse chain, returning `None` (here `none`) when any stage fails.
The zlib calls (`pako_deflate_raw` / `pako_inflate_raw`) are external
library calls and appear as parameters of the two functions. -/

/-- A Unicode scalar value (what a valid Python `str` holds once the
text is encodable, i.e. free of surrogates). -/
def validScalar (c : Nat) : Prop := c < 0xD800 ∨ (0xE000 ≤ c ∧ c < 0x110000)

instance (c : Nat) : Decidable (validScalar c) := by
  unfold validScalar; infer_instance

/-- UTF-8 encoding of one scalar value. -/
def utf8EncodeChar (c : Nat) : List Nat :=
  if c < 0x80 then [c]
  else if c < 0x800 then [0xC0 + c / 64, 0x80 + c % 64]
  else if c < 0x10000 then [0xE0 + c / 4096, 0x80 + (c / 64) % 64, 0x80 + c % 64]
  else [0xF0 + c / 262144, 0x80 + (c / 4096) % 64, 0x80 + (c / 64) % 64, 0x80 + c % 64]

/-- UTF-8 encoding of a code-point string (Python `str.encode('utf-8')`). -/
def utf8Encode (s : Str) : List Nat := s.flatMap utf8EncodeChar

/-- A UTF-8 continuation byte. -/
def utf8Cont (b : Nat) : Bool := 0x80 ≤ b ∧ b < 0xC0

/-- Scalar value of a two-byte sequence. -/
def utf8Val2 (b0 b1 : Nat) : Nat := (b0 - 0xC0) * 64 + (b1 - 0x80)

/-- Scalar value of a three-byte sequence. -/
def utf8Val3 (b0 b1 b2 : Nat) : Nat := (b0 - 0xE0) * 4096 + (b1 - 0x80) * 64 + (b2 - 0x80)

/-- Scalar value of a four-byte sequence. -/
def utf8Val4 (b0 b1 b2 b3 : Nat) : Nat :=
  (b0 - 0xF0) * 262144 + (b1 - 0x80) * 4096 + (b2 - 0x80) * 64 + (b3 - 0x80)

/-- Validity of a three-byte sequence: continuation bytes, no overlong
form, no surrogate. -/
def utf8Ok3 (b0 b1 b2 : Nat) : Bool :=
  utf8Cont b1 && utf8Cont b2 && decide (0x800 ≤ utf8Val3 b0 b1 b2) &&
    !(decide (0xD800 ≤ utf8Val3 b0 b1 b2) && decide (utf8Val3 b0 b1 b2 < 0xE000))

/-- Validity of a four-byte sequence: continuation bytes, no overlong
form, value in range. -/
def utf8Ok4 (b0 b1 b2 b3 : Nat) : Bool :=
  utf8Cont b1 && utf8Cont b2 && utf8Cont b3 &&
    decide (0x10000 ≤ utf8Val4 b0 b1 b2 b3) && decide (utf8Val4 b0 b1 b2 b3 < 0x110000)

/-- One step of strict UTF-8 decoding: the first scalar value and the
remaining bytes, or `none` on a malformed prefix (truncated sequence,
overlong form, surrogate, out-of-range value). -/
def utf8DecodeOne : List Nat → Option (Nat × List Nat)
  | [] => none
  | b0 :: rest =>
    if b0 < 0x80 then some (b0, rest)
    else if b0 < 0xC2 then none
    else if b0 < 0xE0 then
      match rest with
      | b1 :: r => if utf8Cont b1 then some (utf8Val2 b0 b1, r) else none
      | [] => none
    else if b0 < 0xF0 then
      match rest with
      | b1 :: b2 :: r => if utf8Ok3 b0 b1 b2 then some (utf8Val3 b0 b1 b2, r) else none
      | _ => none
    else if b0 < 0xF5 then
      match rest with
      | b1 :: b2 :: b3 :: r => if utf8Ok4 b0 b1 b2 b3 then some (utf8Val4 b0 b1 b2 b3, r) else none
      | _ => none
    else none

/-- Driver for strict UTF-8 decoding, structurally recursive on a fuel
argument; each step consumes at least one byte, so fuel equal to the
byte count never runs out. -/
def utf8DecodeGo : Nat → List Nat → Option Str
  | _, [] => some []
  | 0, _ :: _ => none
  | fuel + 1, b0 :: rest =>
    match utf8DecodeOne (b0 :: rest) with
    | some (c, r) => (utf8DecodeGo fuel r).map (c :: ·)
    | none => none

/-- Strict UTF-8 decoding (Python `bytes.decode('utf-8')`). -/
def utf8Decode (bs : List Nat) : Option Str := utf8DecodeGo bs.length bs

/-- UTF-8 decoding with `errors='replace'` (as used inside
`urllib.parse.unquote`): agrees with the strict decoder on valid input;
a malformed sequence is replaced by U+FFFD replacement characters (the
exact per-byte replacement pattern of CPython is irrelevant here, since
every input this model feeds it is valid UTF-8). -/
def utf8DecodeReplace (bs : List Nat) : Str :=
  match utf8Decode bs with
  | some s => s
  | none => bs.map fun _ => 0xFFFD

/-- Uppercase hexadecimal digit, as produced by `urllib.parse.quote`. -/
def hexUp (n : Nat) : Nat := if n < 10 then 48 + n else 55 + n

/-- Value of a hexadecimal digit character (upper or lower case), as
accepted by `urllib.parse.unquote`. -/
def hexVal (c : Nat) : Option Nat :=
  if 48 ≤ c ∧ c ≤ 57 then some (c - 48)
  else if 65 ≤ c ∧ c ≤ 70 then some (c - 55)
  else if 97 ≤ c ∧ c ≤ 102 then some (c - 87)
  else none

/-- The bytes `urllib.parse.quote(_, safe="~()*!.'")` leaves unescaped:
the always-safe set (ASCII letters, digits, `_ . - ~`) plus the extra
safe characters `( ) * ! '` passed at the call site in
`encode_diagram_data`. -/
def quoteSafe (b : Nat) : Bool :=
  (65 ≤ b ∧ b ≤ 90) ∨ (97 ≤ b ∧ b ≤ 122) ∨ (48 ≤ b ∧ b ≤ 57) ∨
    b = 95 ∨ b = 46 ∨ b = 45 ∨ b = 126 ∨
    b = 40 ∨ b = 41 ∨ b = 42 ∨ b = 33 ∨ b = 39

/-- One byte of the percent-encoding: safe bytes pass through, others
become `%XX` with uppercase hex. -/
def quoteByte (b : Nat) : List Nat :=
  if quoteSafe b then [b] else [37, hexUp (b / 16), hexUp (b % 16)]

/-- `urllib.parse.quote(s, safe="~()*!.'")`, composed with the
subsequent `.encode()`: since the quoted string is pure ASCII its code
points and its bytes coincide, so we produce the byte list directly. -/
def pyQuote (s : Str) : List Nat := (utf8Encode s).flatMap quoteByte

/-- Scanner of `urllib.parse.unquote`: `pending` holds the bytes of the
maximal run of consecutive `%XX` escapes seen so far, which is decoded
as UTF-8 (with replacement) as soon as the run ends. -/
def unquoteAux (pending : List Nat) : Str → Str
  | [] => utf8DecodeReplace pending
  | [c] => utf8DecodeReplace pending ++ [c]
  | [c, d] => utf8DecodeReplace pending ++ [c, d]
  | c :: a :: b :: rest =>
    if c = 37 then
      match hexVal a, hexVal b with
      | some ha, some hb => unquoteAux (pending ++ [ha * 16 + hb]) rest
      | _, _ => utf8DecodeReplace pending ++ c :: unquoteAux [] (a :: b :: rest)
    else
      utf8DecodeReplace pending ++ c :: unquoteAux [] (a :: b :: rest)

/-- Model of `urllib.parse.unquote` with default arguments. -/
def pyUnquote (s : Str) : Str := unquoteAux [] s

/-- Base64 alphabet character for a 6-bit value. -/
def b64Char (n : Nat) : Nat :=
  if n < 26 then 65 + n
  else if n < 52 then 97 + (n - 26)
  else if n < 62 then 48 + (n - 52)
  else if n = 62 then 43
  else 47

/-- Value of a base64 alphabet character. -/
def b64Val (c : Nat) : Option Nat :=
  if 65 ≤ c ∧ c ≤ 90 then some (c - 65)
  else if 97 ≤ c ∧ c ≤ 122 then some (26 + (c - 97))
  else if 48 ≤ c ∧ c ≤ 57 then some (52 + (c - 48))
  else if c = 43 then some 62
  else if c = 47 then some 63
  else none

/-- The four alphabet characters of a full three-byte group. -/
def b64Group3 (b0 b1 b2 : Nat) : List Nat :=
  [b64Char ((b0 * 65536 + b1 * 256 + b2) / 262144),
   b64Char ((b0 * 65536 + b1 * 256 + b2) / 4096 % 64),
   b64Char ((b0 * 65536 + b1 * 256 + b2) / 64 % 64),
   b64Char ((b0 * 65536 + b1 * 256 + b2) % 64)]

/-- The final group for a two-byte remainder (one `=` pad). -/
def b64Group2 (b0 b1 : Nat) : List Nat :=
  [b64Char ((b0 * 65536 + b1 * 256) / 262144),
   b64Char ((b0 * 65536 + b1 * 256) / 4096 % 64),
   b64Char ((b0 * 65536 + b1 * 256) / 64 % 64), 61]

/-- The final group for a one-byte remainder (two `=` pads). -/
def b64Group1 (b0 : Nat) : List Nat :=
  [b64Char (b0 * 65536 / 262144), b64Char (b0 * 65536 / 4096 % 64), 61, 61]

/-- The final (possibly empty) partial group of the base64 encoder;
only ever applied to fewer than three remaining bytes. -/
def b64Tail : List Nat → List Nat
  | [] => []
  | [b0] => b64Group1 b0
  | b0 :: b1 :: _ => b64Group2 b0 b1

/-- `base64.b64encode`: groups of three bytes become four alphabet
characters; a final group of one or two bytes is padded with `=`. -/
def base64Encode : List Nat → List Nat
  | b0 :: b1 :: b2 :: rest => b64Group3 b0 b1 b2 ++ base64Encode rest
  | s => b64Tail s

/-- The three bytes of a full four-character group. -/
def b64Dec3 (v0 v1 v2 v3 : Nat) : List Nat :=
  [(v0 * 262144 + v1 * 4096 + v2 * 64 + v3) / 65536,
   (v0 * 262144 + v1 * 4096 + v2 * 64 + v3) / 256 % 256,
   (v0 * 262144 + v1 * 4096 + v2 * 64 + v3) % 256]

/-- The two bytes of a final group with one `=` pad (spare bits
ignored, as in `binascii`). -/
def b64Dec2 (v0 v1 v2 : Nat) : List Nat :=
  [(v0 * 262144 + v1 * 4096 + v2 * 64) / 65536,
   (v0 * 262144 + v1 * 4096 + v2 * 64) / 256 % 256]

/-- The byte of a final group with two `=` pads. -/
def b64Dec1 (v0 v1 : Nat) : List Nat := [(v0 * 262144 + v1 * 4096) / 65536]

/-- Decoding of base64 groups of four characters; `=` padding is only
accepted in the last group.  `none` models the `binascii.Error`
exception. -/
def b64DecodeGroups : List Nat → Option (List Nat)
  | [] => some []
  | c0 :: c1 :: c2 :: c3 :: rest =>
    match b64Val c0, b64Val c1 with
    | some v0, some v1 =>
      if c2 = 61 ∧ c3 = 61 ∧ rest = [] then
        some (b64Dec1 v0 v1)
      else if c3 = 61 ∧ rest = [] then
        match b64Val c2 with
        | some v2 => some (b64Dec2 v0 v1 v2)
        | none => none
      else
        match b64Val c2, b64Val c3 with
        | some v2, some v3 => (b64DecodeGroups rest).map (fun bs => b64Dec3 v0 v1 v2 v3 ++ bs)
        | _, _ => none
    | _, _ => none
  | _ => none

/-- `base64.b64decode` with default arguments: characters outside the
alphabet and padding are discarded, then groups of four are decoded; a
leftover group of the wrong size is an error. -/
def base64Decode (s : List Nat) : Option (List Nat) :=
  b64DecodeGroups (s.filter fun c => (b64Val c).isSome ∨ c = 61)

/-- `encode_diagram_data` (`src/extractor/drawio_tools.py:53-67`):
percent-encode with safe set `~()*!.'`, UTF-8 encode, raw deflate
(`deflate`, the external `pako_deflate_raw`), base64 encode. -/
def encode_diagram_data (deflate : List Nat → List Nat) (data : Str) : List Nat :=
  base64Encode (deflate (pyQuote data))

/-- `decode_diagram_data` (`src/extractor/drawio_tools.py:33-50`):
base64 decode, raw inflate (`inflate`, the external `pako_inflate_raw`,
`none` modelling its exceptions), UTF-8 decode, percent-decode; any
stage failure yields `none`. -/
def decode_diagram_data (inflate : List Nat → Option (List Nat)) (data : List Nat) :
    Option Str :=
  (base64Decode data).bind fun raw =>
    (inflate raw).bind fun inflated =>
      (utf8Decode inflated).map fun text => pyUnquote text

/-! ## Dual-store indexer (`src/browser/app.py`, `index_all_diagrams`)

The SQLite database and the Whoosh index are modelled by explicit state
(`Stores`).  A run of `index_all_diagrams` is a function from the prior
state and the on-disk inputs to a new state plus the returned count and
the commit outcome of the two writers.

Modelling notes tied to the source:
* `DELETE FROM` does not reset the `AUTOINCREMENT` sequences, so the
  next row ids survive a rebuild; they are carried in the state.
* `init_index` (`app.py:207-212`) only creates the Whoosh index when its
  directory is missing; a rebuild therefore only *adds* documents
  (`writer.add_document`) and never clears existing ones.
* The early `return 0` taken when the metadata root is missing
  (`app.py:288-289`) happens before `conn.commit()` and
  `writer.commit()`: the open SQLite transaction (including the wipe and
  the application inserts) is rolled back when the connection is
  garbage-collected, and the Whoosh writer is left uncommitted, so the
  prior state survives unchanged.
* Per-file exceptions (malformed JSON, etc.) are caught and skipped
  (`app.py:406-408`); a file that fails to parse is a `MetaFile` whose
  `meta` is `none`.  File-path fields of the row are omitted: no claim
  mentions them.
-/

/-- The fields of one parsed metadata JSON file that
`index_all_diagrams` reads, with the `.get` defaults already applied
(`''`/`0` when a field is absent).  `version_displayName` keeps its
option: the code defaults it to the username
(`author_info.get('displayName', author)`). -/
structure Meta where
  title : Str
  links_webui : Str
  page_link : Str
  page_title : Str
  container : Str
  page_id : Str
  version_when : Str
  version_username : Str
  version_displayName : Option Str
  fileSize : Nat
  body_text : Str
deriving DecidableEq, Repr

/-- A metadata file on disk together with the text the content extractor
recovers from the matching `.drawio` file: `drawioText = none` models an
absent diagram file, `some t` a present one whose extraction returned
`t` (possibly empty).  `meta = none` models a file whose processing
raises (malformed JSON, null fields), which the loop skips. -/
structure MetaFile where
  meta : Option Meta
  drawioText : Option Str
deriving DecidableEq, Repr

/-- One row of the `diagrams` table (file-path columns omitted). -/
structure Record where
  space_key : Str
  diagram_name : Str
  page_title : Str
  page_id : Str
  confluence_page_url : Str
  author : Str
  author_display : Str
  created_date : Str
  file_size : Nat
  content_text : Str
deriving DecidableEq, Repr

/-- One document of the Whoosh index, as added at `app.py:395-402`
(the `author` field receives the display name). -/
structure IdxDoc where
  docId : Nat
  space_key : Str
  diagram_name : Str
  page_title : Str
  author : Str
  content : Str
deriving DecidableEq, Repr

/-- Normalization of one metadata record (`app.py:313-366`). -/
def mkRecord (space_key : Str) (m : Meta) (drawioText : Option Str) : Record :=
  let title := m.title
  let diagram_name :=
    if (lit ".png").isSuffixOf title then pyReplace (lit ".png") [] title else title
  let webui := if m.links_webui ≠ [] then m.links_webui else m.page_link
  let page_id := if m.container ≠ [] then splitLast 47 m.container else m.page_id
  let confluence_page_url :=
    if webui ≠ [] then
      if pyIn (lit "viewpage.action") webui then webui else splitHead 63 webui
    else if page_id ≠ [] then lit "/pages/viewpage.action?pageId=" ++ page_id
    else []
  let page_title :=
    if webui ≠ [] ∧ m.page_title = [] ∧ pyIn (lit "/display/") webui then
      let parts := splitOn 47 webui
      if 4 ≤ parts.length then
        pyUnquote (replaceChar 43 32 (splitHead 63 (parts.getD 3 [])))
      else m.page_title
    else m.page_title
  let author := m.version_username
  let content_text :=
    match drawioText with
    | some t => if t = [] then m.body_text else t
    | none => m.body_text
  { space_key := space_key
    diagram_name := diagram_name
    page_title := page_title
    page_id := page_id
    confluence_page_url := confluence_page_url
    author := author
    author_display := m.version_displayName.getD author
    created_date := if m.version_when ≠ [] then m.version_when.take 10 else []
    file_size := m.fileSize
    content_text := content_text }

/-- The string the application matcher scans (`app.py:382-386`):
`' '.join([diagram_name or '', page_title or '', content_text or '']).lower()`. -/
def searchable (r : Record) : Str :=
  asciiLower (r.diagram_name ++ 32 :: r.page_title ++ 32 :: r.content_text)

/-- Insertion into the `app_id_map` dict: overwriting an existing key
keeps its position, a new key is appended (Python dict semantics). -/
def mapInsert : List (Str × Nat) → Str → Nat → List (Str × Nat)
  | [], k, v => [(k, v)]
  | (k', v') :: t, k, v =>
    if k' = k then (k, v) :: t else (k', v') :: mapInsert t k v

/-- The `diagram_applications` rows produced for one diagram
(`app.py:387-392`): one link per map entry whose lowercased name is a
substring of the searchable text, in map iteration order. -/
def appLinksFor (appMap : List (Str × Nat)) (did : Nat) (r : Record) : List (Nat × Nat) :=
  appMap.filterMap fun e => if pyIn e.1 (searchable r) then some (did, e.2) else none

/-- The Whoosh document written for one diagram (`app.py:395-402`). -/
def mkDoc (did : Nat) (space_key : Str) (r : Record) : IdxDoc :=
  { docId := did
    space_key := space_key
    diagram_name := r.diagram_name
    page_title := r.page_title
    author := r.author_display
    content := r.content_text }

/-- The per-space file loop (`app.py:303-408`): each parseable file
inserts one diagram row (taking the next rowid), its application links
and one index document; a failing file is skipped. -/
def processFiles (appMap : List (Str × Nat)) (space_key : Str) :
    List MetaFile → Nat → List (Nat × Record) × List (Nat × Nat) × List IdxDoc
  | [], _ => ([], [], [])
  | mf :: rest, nextId =>
    match mf.meta with
    | none => processFiles appMap space_key rest nextId
    | some m =>
      let r := mkRecord space_key m mf.drawioText
      let out := processFiles appMap space_key rest (nextId + 1)
      ((nextId, r) :: out.1, appLinksFor appMap nextId r ++ out.2.1,
        mkDoc nextId space_key r :: out.2.2)

/-- The space loop (`app.py:296-408`). -/
def processSpaces (appMap : List (Str × Nat)) :
    List (Str × List MetaFile) → Nat → List (Nat × Record) × List (Nat × Nat) × List IdxDoc
  | [], _ => ([], [], [])
  | (sk, files) :: rest, nextId =>
    let here := processFiles appMap sk files nextId
    let there := processSpaces appMap rest (nextId + here.1.length)
    (here.1 ++ there.1, here.2.1 ++ there.2.1, here.2.2 ++ there.2.2)

/-- The two stores: the SQLite tables (with their `AUTOINCREMENT`
sequences) and the Whoosh index documents. -/
structure Stores where
  dbDiagrams : List (Nat × Record)
  dbApplications : List (Nat × Str)
  dbLinks : List (Nat × Nat)
  nextDiagramId : Nat
  nextAppId : Nat
  idxDocs : List IdxDoc
deriving DecidableEq, Repr

/-- Fresh stores after `init_db` / `init_index` on an empty directory
(SQLite rowids start at 1). -/
def initialStores : Stores :=
  { dbDiagrams := [], dbApplications := [], dbLinks := []
    nextDiagramId := 1, nextAppId := 1, idxDocs := [] }

/-- The on-disk input of one rebuild run: the configured application
names, whether the metadata root directory exists, and per space
directory its `.json` metadata files in listing order. -/
structure RebuildInput where
  appNames : List Str
  metadataRootExists : Bool
  spaces : List (Str × List MetaFile)
deriving DecidableEq, Repr

/-- Outcome of one rebuild run: the new state, the returned count, and
whether each writer was committed on the exit path taken. -/
structure RebuildResult where
  stores : Stores
  returned : Nat
  dbCommitted : Bool
  idxCommitted : Bool
deriving DecidableEq, Repr

/-- The `applications` rows inserted at `app.py:280-282`, with their
`AUTOINCREMENT`-assigned ids. -/
def appRowsOf (prior : Stores) (inp : RebuildInput) : List (Nat × Str) :=
  inp.appNames.enum.map fun p => (prior.nextAppId + p.1, p.2)

/-- The `app_id_map` dict built at `app.py:277-282`: lowercased name to
row id, in insertion order, later duplicates overwriting in place. -/
def appMapOf (prior : Stores) (inp : RebuildInput) : List (Str × Nat) :=
  (appRowsOf prior inp).foldl (fun mm e => mapInsert mm (asciiLower e.2) e.1) []

/-- `index_all_diagrams` (`app.py:259-414`).  On the early-return path
(metadata root missing) neither writer is committed: the relational
transaction (wipe plus application inserts) rolls back and the index is
untouched, so the prior stores survive.  On the normal path the
relational tables hold exactly this generation's rows, while the index
keeps its prior documents and gains this generation's — `init_index`
never wipes an existing index.  (Exact-duplicate application names,
which would violate the table's UNIQUE constraint and abort the run,
are outside this model.) -/
def index_all_diagrams (prior : Stores) (inp : RebuildInput) : RebuildResult :=
  let appRows := appRowsOf prior inp
  let appMap := appMapOf prior inp
  if inp.metadataRootExists then
    let out := processSpaces appMap inp.spaces prior.nextDiagramId
    { stores :=
        { dbDiagrams := out.1
          dbApplications := appRows
          dbLinks := out.2.1
          nextDiagramId := prior.nextDiagramId + out.1.length
          nextAppId := prior.nextAppId + inp.appNames.length
          idxDocs := prior.idxDocs ++ out.2.2 }
      returned := out.1.length
      dbCommitted := true
      idxCommitted := true }
  else
    { stores := prior, returned := 0, dbCommitted := false, idxCommitted := false }

/-! ## Query engine (`src/browser/app.py`, `search` route)

Whoosh's parsed-query matching is external; it enters the model as a
predicate `matchQ` on index documents.  The route's outputs that the
claims mention are gathered in `SearchPage`; `total` and `totalPages`
are `Option` because the error paths render the template without them.
The grouped-view bucketing only reorders the rendered rows and is not
needed by any claim.  Nonpositive `page` values (reachable only by a
hand-crafted query string, where Python's negative slicing applies) are
outside the model; the claims quantify over pages from 1 up. -/

/-- The error message of the not-ready path (`app.py:620`). -/
def errIndexNotBuilt : Str := lit "Index not built. Run indexing first."

/-- `index_is_populated` (`app.py:215-225`): the index exists (it always
does once the app initialized) and has at least one document. -/
def index_is_populated (st : Stores) : Bool := 0 < st.idxDocs.length

/-- The hit list `searcher.search(q, limit=1000)` produces: the
matching documents, capped at 1000. -/
def filteredHits (st : Stores) (matchQ : IdxDoc → Bool) : List IdxDoc :=
  (st.idxDocs.filter matchQ).take 1000

/-- What the `search` route hands to its template. -/
structure SearchPage where
  results : List (Nat × Record)
  pageIds : List Nat
  total : Option Nat
  totalPages : Option Nat
  error : Option Str
deriving DecidableEq, Repr

/-- The `search` route (`app.py:607-695`): strip the query; empty query
and not-ready short-circuits; otherwise filter, cap at 1000, paginate
(50 per page) unless grouping, and fetch the page's rows by id (the SQL
`IN` fetch returns rows in table order). -/
def searchRoute (st : Stores) (matchQ : IdxDoc → Bool) (queryRaw : Str)
    (page : Nat) (groupBySpace : Bool) : SearchPage :=
  let query := pyStrip queryRaw
  if query = [] then
    { results := [], pageIds := [], total := some 0, totalPages := none, error := none }
  else if ¬ index_is_populated st then
    { results := [], pageIds := [], total := none, totalPages := none,
      error := some errIndexNotBuilt }
  else
    let resultData := (filteredHits st matchQ).map fun d => (d.docId, d.space_key)
    let total := resultData.length
    let pageIds :=
      if groupBySpace then resultData.map (·.1)
      else ((resultData.drop ((page - 1) * 50)).take 50).map (·.1)
    { results := st.dbDiagrams.filter fun dr => pageIds.contains dr.1
      pageIds := pageIds
      total := some total
      totalPages := some ((total + 50 - 1) / 50)
      error := none }

/-! ## Lemmas about the payload codec -/

lemma utf8Cont_true {b : Nat} (h : 0x80 ≤ b ∧ b < 0xC0) : utf8Cont b = true := by
  simp [utf8Cont]; omega

lemma utf8DecodeOne_encodeChar {c : Nat} (hc : validScalar c) (rest : List Nat) :
    utf8DecodeOne (utf8EncodeChar c ++ rest) = some (c, rest) := by
  have hlt : c < 0x110000 := by
    rcases hc with h | h
    · omega
    · exact h.2
  by_cases h1 : c < 0x80
  · rw [utf8EncodeChar.eq_def, if_pos h1, List.singleton_append, utf8DecodeOne.eq_def]
    dsimp only
    rw [if_pos h1]
  · by_cases h2 : c < 0x800
    · rw [utf8EncodeChar.eq_def, if_neg h1, if_pos h2, List.cons_append, List.cons_append,
        List.nil_append, utf8DecodeOne.eq_def]
      dsimp only
      rw [if_neg (by omega), if_neg (by omega), if_pos (by omega),
        if_pos (utf8Cont_true (by omega))]
      have hv : utf8Val2 (0xC0 + c / 64) (0x80 + c % 64) = c := by unfold utf8Val2; omega
      rw [hv]
    · by_cases h3 : c < 0x10000
      · have hs : ¬ (0xD800 ≤ c ∧ c < 0xE000) := by
          rcases hc with h | h <;> omega
        rw [utf8EncodeChar.eq_def, if_neg h1, if_neg h2, if_pos h3, List.cons_append,
          List.cons_append, List.cons_append, List.nil_append, utf8DecodeOne.eq_def]
        dsimp only
        rw [if_neg (by omega), if_neg (by omega), if_neg (by omega), if_pos (by omega)]
        have hv : utf8Val3 (0xE0 + c / 4096) (0x80 + c / 64 % 64) (0x80 + c % 64) = c := by
          unfold utf8Val3; omega
        have hok : utf8Ok3 (0xE0 + c / 4096) (0x80 + c / 64 % 64) (0x80 + c % 64) = true := by
          unfold utf8Ok3
          rw [utf8Cont_true (by omega), utf8Cont_true (by omega), hv]
          simp only [Bool.true_and, Bool.and_eq_true, decide_eq_true_eq, Bool.not_and,
            Bool.or_eq_true, Bool.not_eq_true']
          constructor
          · omega
          · by_cases hd : 0xD800 ≤ c
            · right; simp only [decide_eq_false_iff_not]; omega
            · left; simp only [decide_eq_false_iff_not]; omega
        rw [if_pos hok, hv]
      · rw [utf8EncodeChar.eq_def, if_neg h1, if_neg h2, if_neg h3, List.cons_append,
          List.cons_append, List.cons_append, List.cons_append, List.nil_append,
          utf8DecodeOne.eq_def]
        dsimp only
        rw [if_neg (by omega), if_neg (by omega), if_neg (by omega), if_neg (by omega),
          if_pos (by omega)]
        have hv : utf8Val4 (0xF0 + c / 262144) (0x80 + c / 4096 % 64) (0x80 + c / 64 % 64)
            (0x80 + c % 64) = c := by
          unfold utf8Val4; omega
        have hok : utf8Ok4 (0xF0 + c / 262144) (0x80 + c / 4096 % 64) (0x80 + c / 64 % 64)
            (0x80 + c % 64) = true := by
          unfold utf8Ok4
          rw [utf8Cont_true (by omega), utf8Cont_true (by omega), utf8Cont_true (by omega), hv]
          simp only [Bool.true_and, Bool.and_eq_true, decide_eq_true_eq]
          omega
        rw [if_pos hok, hv]

lemma utf8DecodeOne_shrink {bs : List Nat} {c : Nat} {r : List Nat}
    (h : utf8DecodeOne bs = some (c, r)) : r.length < bs.length := by
  match bs with
  | [] => simp [utf8DecodeOne] at h
  | b0 :: rest =>
    rw [utf8DecodeOne.eq_def] at h
    dsimp only at h
    split_ifs at h
    · injection h with h'
      injection h' with h1 h2
      subst h2
      simp
    · match rest with
      | [] => exact absurd h (by simp)
      | b1 :: r1 =>
        dsimp only at h
        split_ifs at h
        injection h with h'
        injection h' with h1 h2
        subst h2
        simp
        omega
    · match rest with
      | [] => exact absurd h (by simp)
      | [b1] => exact absurd h (by simp)
      | b1 :: b2 :: r2 =>
        dsimp only at h
        split_ifs at h
        injection h with h'
        injection h' with h1 h2
        subst h2
        simp
        omega
    · match rest with
      | [] => exact absurd h (by simp)
      | [b1] => exact absurd h (by simp)
      | [b1, b2] => exact absurd h (by simp)
      | b1 :: b2 :: b3 :: r3 =>
        dsimp only at h
        split_ifs at h
        injection h with h'
        injection h' with h1 h2
        subst h2
        simp
        omega

lemma utf8DecodeGo_fuel : ∀ (fuel : Nat) (bs : List Nat), bs.length ≤ fuel →
    utf8DecodeGo fuel bs = utf8DecodeGo bs.length bs := by
  intro fuel
  induction fuel using Nat.strong_induction_on with
  | _ fuel ih =>
    intro bs hle
    match bs with
    | [] => cases fuel <;> rfl
    | b0 :: rest =>
      simp only [List.length_cons] at hle ⊢
      match fuel, hle with
      | f + 1, hle =>
        rw [utf8DecodeGo.eq_def]
        conv_rhs => rw [utf8DecodeGo.eq_def]
        dsimp only
        cases hone : utf8DecodeOne (b0 :: rest) with
        | none => rfl
        | some p =>
          obtain ⟨c, r⟩ := p
          have hr : r.length < rest.length + 1 := utf8DecodeOne_shrink hone
          dsimp only
          rw [ih f (by omega) r (by omega), ih rest.length (by omega) r (by omega)]

lemma utf8Decode_step {bs : List Nat} {c : Nat} {r : List Nat}
    (h : utf8DecodeOne bs = some (c, r)) :
    utf8Decode bs = (utf8Decode r).map (c :: ·) := by
  match bs with
  | [] => simp [utf8DecodeOne] at h
  | b0 :: rest =>
    have hr : r.length < rest.length + 1 := by
      have := utf8DecodeOne_shrink h
      simpa using this
    unfold utf8Decode
    simp only [List.length_cons]
    rw [utf8DecodeGo.eq_def]
    dsimp only
    rw [h]
    dsimp only
    rw [utf8DecodeGo_fuel rest.length r (by omega)]

lemma utf8Decode_encodeChar {c : Nat} (hc : validScalar c) (rest : List Nat) :
    utf8Decode (utf8EncodeChar c ++ rest) = (utf8Decode rest).map (c :: ·) :=
  utf8Decode_step (utf8DecodeOne_encodeChar hc rest)

lemma utf8Decode_encode_append {s : Str} (hs : ∀ c ∈ s, validScalar c) (tail : List Nat) :
    utf8Decode (utf8Encode s ++ tail) = (utf8Decode tail).map (s ++ ·) := by
  induction s with
  | nil =>
    simp only [utf8Encode, List.flatMap_nil, List.nil_append]
    cases utf8Decode tail <;> simp
  | cons c t ih =>
    have hc : validScalar c := hs c (List.mem_cons_self c t)
    have ht : ∀ a ∈ t, validScalar a := fun a ha => hs a (List.mem_cons_of_mem c ha)
    simp only [utf8Encode, List.flatMap_cons] at *
    rw [List.append_assoc, utf8Decode_encodeChar hc, ih ht]
    cases utf8Decode tail <;> simp

lemma utf8Decode_encode {s : Str} (hs : ∀ c ∈ s, validScalar c) :
    utf8Decode (utf8Encode s) = some s := by
  have := utf8Decode_encode_append hs []
  simpa [utf8Decode, utf8DecodeGo] using this

lemma utf8DecodeReplace_encode {s : Str} (hs : ∀ c ∈ s, validScalar c) :
    utf8DecodeReplace (utf8Encode s) = s := by
  unfold utf8DecodeReplace
  rw [utf8Decode_encode hs]

lemma utf8Decode_ascii {l : List Nat} (h : ∀ b ∈ l, b < 0x80) : utf8Decode l = some l := by
  induction l with
  | nil => rfl
  | cons b t ih =>
    have hb : b < 0x80 := h b (List.mem_cons_self b t)
    have hone : utf8DecodeOne (b :: t) = some (b, t) := by
      rw [utf8DecodeOne.eq_def]
      dsimp only
      rw [if_pos hb]
    rw [utf8Decode_step hone, ih fun a ha => h a (List.mem_cons_of_mem b ha)]
    rfl

lemma quoteSafe_lt {b : Nat} (h : quoteSafe b = true) : b < 0x80 := by
  simp only [quoteSafe, Bool.or_eq_true, decide_eq_true_eq] at h
  omega

lemma quoteSafe_ne37 {b : Nat} (h : quoteSafe b = true) : b ≠ 37 := by
  simp only [quoteSafe, Bool.or_eq_true, decide_eq_true_eq] at h
  omega

lemma quoteSafe_hi {b : Nat} (h : 0x80 ≤ b) : quoteSafe b = false := by
  rw [Bool.eq_false_iff]
  intro hc
  exact absurd (quoteSafe_lt hc) (by omega)

lemma hexVal_hexUp : ∀ n, n < 16 → hexVal (hexUp n) = some n := by decide

lemma hexUp_lt : ∀ n, n < 16 → hexUp n < 0x80 := by decide

lemma utf8EncodeChar_hi {c : Nat} (hc : validScalar c) (h : 0x80 ≤ c) :
    ∀ b ∈ utf8EncodeChar c, 0x80 ≤ b ∧ b < 256 := by
  have hlt : c < 0x110000 := by
    rcases hc with h' | h'
    · omega
    · exact h'.2
  intro b hb
  rw [utf8EncodeChar.eq_def] at hb
  split_ifs at hb <;>
    simp only [List.mem_cons, List.not_mem_nil, or_false] at hb <;> omega

lemma utf8EncodeChar_lt256 {c : Nat} (hc : validScalar c) :
    ∀ b ∈ utf8EncodeChar c, b < 256 := by
  by_cases h : c < 0x80
  · intro b hb
    rw [utf8EncodeChar.eq_def, if_pos h] at hb
    simp only [List.mem_cons, List.not_mem_nil, or_false] at hb
    omega
  · exact fun b hb => (utf8EncodeChar_hi hc (by omega) b hb).2

lemma pyQuote_ascii {x : Str} (hx : ∀ c ∈ x, validScalar c) :
    ∀ b ∈ pyQuote x, b < 0x80 := by
  intro b hb
  unfold pyQuote at hb
  rw [List.mem_flatMap] at hb
  obtain ⟨y, hy, hb⟩ := hb
  unfold utf8Encode at hy
  rw [List.mem_flatMap] at hy
  obtain ⟨c, hc, hy⟩ := hy
  have hy256 : y < 256 := utf8EncodeChar_lt256 (hx c hc) y hy
  unfold quoteByte at hb
  split_ifs at hb with hsafe
  · simp only [List.mem_cons, List.not_mem_nil, or_false] at hb
    subst hb
    exact quoteSafe_lt hsafe
  · simp only [List.mem_cons, List.not_mem_nil, or_false] at hb
    rcases hb with hb | hb | hb <;> subst hb
    · omega
    · exact hexUp_lt _ (by omega)
    · exact hexUp_lt _ (by omega)

lemma unquoteAux_escaped : ∀ (e : List Nat), (∀ b ∈ e, b < 256 ∧ quoteSafe b = false) →
    ∀ (pend : List Nat) (tail : Str),
    unquoteAux pend (e.flatMap quoteByte ++ tail) = unquoteAux (pend ++ e) tail := by
  intro e
  induction e with
  | nil => intro _ pend tail; simp
  | cons b e' ih =>
    intro he pend tail
    have hb : b < 256 ∧ quoteSafe b = false := he b (List.mem_cons_self b e')
    have he' : ∀ a ∈ e', a < 256 ∧ quoteSafe a = false :=
      fun a ha => he a (List.mem_cons_of_mem b ha)
    rw [List.flatMap_cons]
    rw [show quoteByte b = [37, hexUp (b / 16), hexUp (b % 16)] by
      unfold quoteByte; rw [if_neg (by simp [hb.2])]]
    simp only [List.cons_append, List.nil_append, List.append_assoc]
    rw [unquoteAux.eq_def]
    dsimp only
    rw [if_pos rfl, hexVal_hexUp (b / 16) (by omega), hexVal_hexUp (b % 16) (by omega)]
    dsimp only
    rw [show b / 16 * 16 + b % 16 = b by omega]
    rw [ih he' (pend ++ [b]) tail, List.append_assoc, List.singleton_append]

lemma unquoteAux_safe_cons (pend : List Nat) {c : Nat} (hc : c ≠ 37) (tail : Str) :
    unquoteAux pend (c :: tail) = utf8DecodeReplace pend ++ c :: unquoteAux [] tail := by
  have h0 : utf8DecodeReplace ([] : List Nat) = [] := rfl
  match tail with
  | [] => rw [unquoteAux.eq_def]; dsimp only; rw [unquoteAux.eq_def]; dsimp only; rw [h0]
  | [d] =>
    rw [unquoteAux.eq_def]; dsimp only
    conv_rhs => rw [unquoteAux.eq_def]
    dsimp only
    rw [h0]
    simp
  | a :: b :: rest =>
    rw [unquoteAux.eq_def]
    dsimp only
    rw [if_neg hc]

lemma unquoteAux_quote : ∀ (x : Str), (∀ c ∈ x, validScalar c) →
    ∀ (p : Str), (∀ c ∈ p, validScalar c) →
    unquoteAux (utf8Encode p) (pyQuote x) = p ++ x := by
  intro x
  induction x with
  | nil =>
    intro _ p hp
    show unquoteAux (utf8Encode p) (pyQuote []) = p ++ []
    rw [show pyQuote [] = [] from rfl]
    rw [unquoteAux.eq_def]
    dsimp only
    rw [utf8DecodeReplace_encode hp, List.append_nil]
  | cons c t ih =>
    intro hx p hp
    have hc : validScalar c := hx c (List.mem_cons_self c t)
    have ht : ∀ a ∈ t, validScalar a := fun a ha => hx a (List.mem_cons_of_mem c ha)
    have hq : pyQuote (c :: t) = (utf8EncodeChar c).flatMap quoteByte ++ pyQuote t := by
      unfold pyQuote utf8Encode
      rw [List.flatMap_cons, List.flatMap_append]
    rw [hq]
    by_cases hsafe : quoteSafe c = true
    · have hca : c < 0x80 := quoteSafe_lt hsafe
      have henc : utf8EncodeChar c = [c] := by rw [utf8EncodeChar.eq_def, if_pos hca]
      have hqb : quoteByte c = [c] := by unfold quoteByte; rw [if_pos hsafe]
      rw [henc, List.flatMap_cons, List.flatMap_nil, List.append_nil, hqb,
        List.singleton_append]
      rw [unquoteAux_safe_cons _ (quoteSafe_ne37 hsafe) _]
      rw [utf8DecodeReplace_encode hp]
      have := ih ht [] (by intro a ha; simp at ha)
      rw [show utf8Encode [] = [] from rfl] at this
      rw [this, List.nil_append]
    · have he : ∀ b ∈ utf8EncodeChar c, b < 256 ∧ quoteSafe b = false := by
        by_cases hca : c < 0x80
        · intro b hb
          rw [utf8EncodeChar.eq_def, if_pos hca] at hb
          simp only [List.mem_cons, List.not_mem_nil, or_false] at hb
          subst hb
          exact ⟨by omega, by rw [Bool.eq_false_iff]; exact hsafe⟩
        · intro b hb
          have := utf8EncodeChar_hi hc (by omega) b hb
          exact ⟨this.2, quoteSafe_hi this.1⟩
      rw [unquoteAux_escaped (utf8EncodeChar c) he (utf8Encode p) (pyQuote t)]
      have henc : utf8Encode p ++ utf8EncodeChar c = utf8Encode (p ++ [c]) := by
        unfold utf8Encode
        rw [List.flatMap_append, List.flatMap_cons, List.flatMap_nil, List.append_nil]
      rw [henc]
      have hp' : ∀ a ∈ p ++ [c], validScalar a := by
        intro a ha
        rcases List.mem_append.mp ha with h | h
        · exact hp a h
        · simp only [List.mem_cons, List.not_mem_nil, or_false] at h
          subst h
          exact hc
      rw [ih ht (p ++ [c]) hp']
      simp

lemma pyUnquote_pyQuote {x : Str} (hx : ∀ c ∈ x, validScalar c) :
    pyUnquote (pyQuote x) = x := by
  unfold pyUnquote
  have := unquoteAux_quote x hx [] (by intro a ha; simp at ha)
  rw [show utf8Encode [] = [] from rfl] at this
  rw [this, List.nil_append]

lemma b64Val_b64Char : ∀ n, n < 64 → b64Val (b64Char n) = some n := by decide

lemma b64Char_ne_pad : ∀ n, n < 64 → b64Char n ≠ 61 := by decide

lemma b64Char_keep {n : Nat} (h : n < 64) :
    ((b64Val (b64Char n)).isSome || decide (b64Char n = 61)) = true := by
  rw [b64Val_b64Char n h]
  rfl

lemma b64Tail_mem (s : List Nat) (h : ∀ b ∈ s, b < 256) :
    ∀ c ∈ b64Tail s, ((b64Val c).isSome || decide (c = 61)) = true := by
  match s with
  | [] => intro c hc; simp [b64Tail] at hc
  | [b0] =>
    have hb0 : b0 < 256 := h b0 (by simp)
    intro c hc
    rw [show b64Tail [b0] = b64Group1 b0 from rfl] at hc
    unfold b64Group1 at hc
    simp only [List.mem_cons, List.not_mem_nil, or_false] at hc
    rcases hc with hc | hc | hc | hc <;> subst hc
    · exact b64Char_keep (by omega)
    · exact b64Char_keep (by omega)
    · rfl
    · rfl
  | b0 :: b1 :: t =>
    have hb0 : b0 < 256 := h b0 (by simp)
    have hb1 : b1 < 256 := h b1 (by simp)
    intro c hc
    rw [show b64Tail (b0 :: b1 :: t) = b64Group2 b0 b1 from rfl] at hc
    unfold b64Group2 at hc
    simp only [List.mem_cons, List.not_mem_nil, or_false] at hc
    rcases hc with hc | hc | hc | hc <;> subst hc
    · exact b64Char_keep (by omega)
    · exact b64Char_keep (by omega)
    · exact b64Char_keep (by omega)
    · rfl

lemma base64Encode_mem (bs : List Nat) : (∀ b ∈ bs, b < 256) →
    ∀ c ∈ base64Encode bs, ((b64Val c).isSome || decide (c = 61)) = true := by
  induction bs using base64Encode.induct with
  | case1 b0 b1 b2 rest ih =>
    intro h c hc
    have hb0 : b0 < 256 := h b0 (by simp)
    have hb1 : b1 < 256 := h b1 (by simp)
    have hb2 : b2 < 256 := h b2 (by simp)
    rw [show base64Encode (b0 :: b1 :: b2 :: rest) = b64Group3 b0 b1 b2 ++ base64Encode rest
      from rfl] at hc
    rcases List.mem_append.mp hc with hc | hc
    · unfold b64Group3 at hc
      simp only [List.mem_cons, List.not_mem_nil, or_false] at hc
      rcases hc with hc | hc | hc | hc <;> subst hc <;> exact b64Char_keep (by omega)
    · exact ih (fun b hb => h b (by simp [hb])) c hc
  | case2 t ht =>
    intro h c hc
    have he : base64Encode t = b64Tail t := by
      match t, ht with
      | [], _ => rfl
      | [b0], _ => rfl
      | [b0, b1], _ => rfl
      | b0 :: b1 :: b2 :: r, ht => exact absurd rfl (by intro hh; exact ht b0 b1 b2 r hh)
    rw [he] at hc
    exact b64Tail_mem t h c hc

lemma base64_filter (bs : List Nat) (h : ∀ b ∈ bs, b < 256) :
    ((base64Encode bs).filter fun c => (b64Val c).isSome ∨ c = 61) = base64Encode bs := by
  rw [List.filter_eq_self]
  intro c hc
  have := base64Encode_mem bs h c hc
  simpa using this

lemma b64DecodeGroups_encode (bs : List Nat) : (∀ b ∈ bs, b < 256) →
    b64DecodeGroups (base64Encode bs) = some bs := by
  induction bs using base64Encode.induct with
  | case1 b0 b1 b2 rest ih =>
    intro h
    have hb0 : b0 < 256 := h b0 (by simp)
    have hb1 : b1 < 256 := h b1 (by simp)
    have hb2 : b2 < 256 := h b2 (by simp)
    rw [show base64Encode (b0 :: b1 :: b2 :: rest) = b64Group3 b0 b1 b2 ++ base64Encode rest
      from rfl]
    unfold b64Group3
    simp only [List.cons_append, List.nil_append]
    rw [b64DecodeGroups.eq_def]
    dsimp only
    rw [b64Val_b64Char _ (by omega), b64Val_b64Char _ (by omega)]
    dsimp only
    rw [if_neg (by
      intro hand
      exact b64Char_ne_pad _ (by omega) hand.1)]
    rw [if_neg (by
      intro hand
      exact b64Char_ne_pad _ (by omega) hand.1)]
    rw [b64Val_b64Char _ (by omega), b64Val_b64Char _ (by omega)]
    dsimp only
    rw [ih (fun b hb => h b (by simp [hb]))]
    have hd : b64Dec3 ((b0 * 65536 + b1 * 256 + b2) / 262144)
        ((b0 * 65536 + b1 * 256 + b2) / 4096 % 64)
        ((b0 * 65536 + b1 * 256 + b2) / 64 % 64)
        ((b0 * 65536 + b1 * 256 + b2) % 64) = [b0, b1, b2] := by
      unfold b64Dec3
      have e1 : (b0 * 65536 + b1 * 256 + b2) / 262144 * 262144 +
          (b0 * 65536 + b1 * 256 + b2) / 4096 % 64 * 4096 +
          (b0 * 65536 + b1 * 256 + b2) / 64 % 64 * 64 +
          (b0 * 65536 + b1 * 256 + b2) % 64 = b0 * 65536 + b1 * 256 + b2 := by omega
      rw [e1]
      have e2 : (b0 * 65536 + b1 * 256 + b2) / 65536 = b0 := by omega
      have e3 : (b0 * 65536 + b1 * 256 + b2) / 256 % 256 = b1 := by omega
      have e4 : (b0 * 65536 + b1 * 256 + b2) % 256 = b2 := by omega
      rw [e2, e3, e4]
    rw [hd]
    rfl
  | case2 t ht =>
    intro h
    have he : base64Encode t = b64Tail t := by
      match t, ht with
      | [], _ => rfl
      | [b0], _ => rfl
      | [b0, b1], _ => rfl
      | b0 :: b1 :: b2 :: r, ht => exact absurd rfl (by intro hh; exact ht b0 b1 b2 r hh)
    rw [he]
    match t, ht with
    | [], _ => rfl
    | [b0], _ =>
      have hb0 : b0 < 256 := h b0 (by simp)
      rw [show b64Tail [b0] = b64Group1 b0 from rfl]
      unfold b64Group1
      rw [b64DecodeGroups.eq_def]
      dsimp only
      rw [b64Val_b64Char _ (by omega), b64Val_b64Char _ (by omega)]
      dsimp only
      rw [if_pos ⟨rfl, rfl, rfl⟩]
      unfold b64Dec1
      have e1 : b0 * 65536 / 262144 * 262144 + b0 * 65536 / 4096 % 64 * 4096 = b0 * 65536 := by
        omega
      rw [e1]
      have e2 : b0 * 65536 / 65536 = b0 := by omega
      rw [e2]
    | [b0, b1], _ =>
      have hb0 : b0 < 256 := h b0 (by simp)
      have hb1 : b1 < 256 := h b1 (by simp)
      rw [show b64Tail [b0, b1] = b64Group2 b0 b1 from rfl]
      unfold b64Group2
      rw [b64DecodeGroups.eq_def]
      dsimp only
      rw [b64Val_b64Char _ (by omega), b64Val_b64Char _ (by omega)]
      dsimp only
      rw [if_neg (by
        intro hand
        exact b64Char_ne_pad _ (by omega) hand.1)]
      rw [if_pos ⟨rfl, rfl⟩]
      rw [b64Val_b64Char _ (by omega)]
      dsimp only
      unfold b64Dec2
      have e1 : (b0 * 65536 + b1 * 256) / 262144 * 262144 +
          (b0 * 65536 + b1 * 256) / 4096 % 64 * 4096 +
          (b0 * 65536 + b1 * 256) / 64 % 64 * 64 = b0 * 65536 + b1 * 256 := by omega
      rw [e1]
      have e2 : (b0 * 65536 + b1 * 256) / 65536 = b0 := by omega
      have e3 : (b0 * 65536 + b1 * 256) / 256 % 256 = b1 := by omega
      rw [e2, e3]
    | b0 :: b1 :: b2 :: r, ht => exact absurd rfl (by intro hh; exact ht b0 b1 b2 r hh)

lemma base64Decode_encode (bs : List Nat) (h : ∀ b ∈ bs, b < 256) :
    base64Decode (base64Encode bs) = some bs := by
  unfold base64Decode
  rw [base64_filter bs h, b64DecodeGroups_encode bs h]

/-! ## Claim theorems -/

/-- C1: for every valid Unicode text `x` (in particular every text free
of the excluded control bytes), decoding the result of encoding `x`
returns `x`: `decode_diagram_data (encode_diagram_data x) = x`, where
encode percent-encodes (leaving `~ ( ) * ! . '` unescaped), UTF-8
encodes, deflates and base64-encodes, and decode inverts the stages in
reverse order.  The external zlib pair enters through the hypotheses:
raw inflate undoes raw deflate and deflate produces bytes. -/
theorem C1_codec_round_trip
    (deflate : List Nat → List Nat) (inflate : List Nat → Option (List Nat)) (x : Str)
    (hvalid : ∀ c ∈ x, validScalar c)
    (hzlib : inflate (deflate (pyQuote x)) = some (pyQuote x))
    (hbytes : ∀ b ∈ deflate (pyQuote x), b < 256) :
    decode_diagram_data inflate (encode_diagram_data deflate x) = some x := by
  unfold encode_diagram_data decode_diagram_data
  rw [base64Decode_encode _ hbytes]
  rw [Option.some_bind, hzlib, Option.some_bind]
  rw [utf8Decode_ascii (pyQuote_ascii hvalid)]
  rw [Option.map_some']
  rw [pyUnquote_pyQuote hvalid]

/-- Witness for C1: the round trip evaluated at a concrete mixed
ASCII/multi-byte input, with the identity as the deflate/inflate pair
(which satisfies the zlib contract hypotheses). -/
theorem C1_codec_round_trip_witness :
    decode_diagram_data some (encode_diagram_data (fun l => l) (lit "Hé €😀 <a>%~"))
      = some (lit "Hé €😀 <a>%~") :=
  C1_codec_round_trip (fun l => l) some (lit "Hé €😀 <a>%~")
    (by decide) (by decide) (by decide)

/-! ## Lemmas about the indexer -/

/-- The records a rebuild inserts for one space directory, in
processing order: one `mkRecord` per parseable metadata file. -/
def recordsOf (sk : Str) (files : List MetaFile) : List Record :=
  files.filterMap fun mf => mf.meta.map fun m => mkRecord sk m mf.drawioText

lemma processFiles_eq (appMap : List (Str × Nat)) (sk : Str) :
    ∀ (files : List MetaFile) (n : Nat),
    processFiles appMap sk files n
      = (List.enumFrom n (recordsOf sk files),
         (List.enumFrom n (recordsOf sk files)).flatMap fun dr => appLinksFor appMap dr.1 dr.2,
         (List.enumFrom n (recordsOf sk files)).map fun dr => mkDoc dr.1 sk dr.2) := by
  intro files
  induction files with
  | nil => intro n; rfl
  | cons mf rest ih =>
    intro n
    match hm : mf.meta with
    | none =>
      rw [processFiles.eq_def]
      dsimp only
      rw [hm]
      dsimp only
      rw [ih n]
      rw [show recordsOf sk (mf :: rest) = recordsOf sk rest by
        unfold recordsOf; rw [List.filterMap_cons, hm]; rfl]
    | some m =>
      rw [processFiles.eq_def]
      dsimp only
      rw [hm]
      dsimp only
      rw [ih (n + 1)]
      rw [show recordsOf sk (mf :: rest) = mkRecord sk m mf.drawioText :: recordsOf sk rest by
        unfold recordsOf; rw [List.filterMap_cons, hm]; rfl]
      rw [List.enumFrom_cons]
      rw [List.flatMap_cons, List.map_cons]

/-- All rows one rebuild inserts into the `diagrams` table, in
insertion order (spaces in listing order, parseable files per space). -/
def rebuildRows (inp : RebuildInput) : List Record :=
  inp.spaces.flatMap fun sf => recordsOf sf.1 sf.2

/-- The index document built from an id-record pair. -/
def mkDocR (dr : Nat × Record) : IdxDoc := mkDoc dr.1 dr.2.space_key dr.2

lemma recordsOf_space_key (sk : Str) (files : List MetaFile) :
    ∀ r ∈ recordsOf sk files, r.space_key = sk := by
  intro r hr
  unfold recordsOf at hr
  rw [List.mem_filterMap] at hr
  obtain ⟨mf, _, hm⟩ := hr
  match hmm : mf.meta with
  | none =>
    rw [hmm, Option.map_none'] at hm
    exact absurd hm (by simp)
  | some m =>
    rw [hmm, Option.map_some'] at hm
    injection hm with hm
    subst hm
    rfl

lemma processSpaces_eq (appMap : List (Str × Nat)) :
    ∀ (spaces : List (Str × List MetaFile)) (n : Nat),
    processSpaces appMap spaces n
      = (List.enumFrom n (spaces.flatMap fun sf => recordsOf sf.1 sf.2),
         (List.enumFrom n (spaces.flatMap fun sf => recordsOf sf.1 sf.2)).flatMap
           (fun dr => appLinksFor appMap dr.1 dr.2),
         (List.enumFrom n (spaces.flatMap fun sf => recordsOf sf.1 sf.2)).map mkDocR) := by
  intro spaces
  induction spaces with
  | nil => intro n; rfl
  | cons sf rest ih =>
    intro n
    obtain ⟨sk, files⟩ := sf
    rw [processSpaces.eq_def]
    dsimp only
    rw [processFiles_eq appMap sk files n, ih]
    dsimp only
    rw [List.enumFrom_length]
    conv_rhs => rw [List.flatMap_cons, List.enumFrom_append, List.flatMap_append,
      List.map_append]
    have hmap : List.map (fun dr => mkDoc dr.1 sk dr.2) (List.enumFrom n (recordsOf sk files))
        = List.map mkDocR (List.enumFrom n (recordsOf sk files)) := by
      apply List.map_congr_left
      intro dr hdr
      have hsk : dr.2.space_key = sk :=
        recordsOf_space_key sk files dr.2 (List.snd_mem_of_mem_enumFrom hdr)
      unfold mkDocR
      rw [hsk]
    rw [hmap]

lemma index_all_diagrams_root (prior : Stores) (inp : RebuildInput)
    (h : inp.metadataRootExists = true) :
    index_all_diagrams prior inp =
      { stores :=
          { dbDiagrams := List.enumFrom prior.nextDiagramId (rebuildRows inp)
            dbApplications := appRowsOf prior inp
            dbLinks := (List.enumFrom prior.nextDiagramId (rebuildRows inp)).flatMap
              fun dr => appLinksFor (appMapOf prior inp) dr.1 dr.2
            nextDiagramId := prior.nextDiagramId + (rebuildRows inp).length
            nextAppId := prior.nextAppId + inp.appNames.length
            idxDocs := prior.idxDocs
              ++ (List.enumFrom prior.nextDiagramId (rebuildRows inp)).map mkDocR }
        returned := (rebuildRows inp).length
        dbCommitted := true
        idxCommitted := true } := by
  unfold index_all_diagrams
  rw [if_pos h, processSpaces_eq]
  dsimp only
  rw [List.enumFrom_length]
  rfl

lemma index_all_diagrams_no_root (prior : Stores) (inp : RebuildInput)
    (h : inp.metadataRootExists = false) :
    index_all_diagrams prior inp
      = { stores := prior, returned := 0, dbCommitted := false, idxCommitted := false } := by
  unfold index_all_diagrams
  rw [if_neg (by rw [h]; simp)]

/-- Number of metadata files of a rebuild input that parse successfully
(per-file failures are skipped, `app.py:406-408`). -/
def parsedCount (inp : RebuildInput) : Nat :=
  (inp.spaces.map fun sf => sf.2.countP fun mf => mf.meta.isSome).sum

/-- The successfully parsed metadata records of an input, in processing
order. -/
def parsedMetas (inp : RebuildInput) : List Meta :=
  inp.spaces.flatMap fun sf => sf.2.filterMap fun mf => mf.meta

lemma recordsOf_length (sk : Str) (files : List MetaFile) :
    (recordsOf sk files).length = files.countP fun mf => mf.meta.isSome := by
  induction files with
  | nil => rfl
  | cons mf rest ih =>
    unfold recordsOf at ih ⊢
    rw [List.filterMap_cons, List.countP_cons]
    match hm : mf.meta with
    | none => simp only [Option.map_none', hm, Option.isSome_none]; rw [ih]; rfl
    | some m =>
      simp only [Option.map_some', hm, Option.isSome_some]
      rw [List.length_cons, ih]
      simp

lemma rebuildRows_length (inp : RebuildInput) :
    (rebuildRows inp).length = parsedCount inp := by
  unfold rebuildRows parsedCount
  induction inp.spaces with
  | nil => rfl
  | cons sf rest ih =>
    rw [List.flatMap_cons, List.length_append, List.map_cons, List.sum_cons, ih,
      recordsOf_length]

lemma recordsOf_names (sk : Str) (files : List MetaFile) :
    (recordsOf sk files).map (fun r => r.diagram_name)
      = (files.filterMap fun mf => mf.meta).map fun m =>
          if (lit ".png").isSuffixOf m.title then pyReplace (lit ".png") [] m.title
          else m.title := by
  induction files with
  | nil => rfl
  | cons mf rest ih =>
    unfold recordsOf at ih ⊢
    rw [List.filterMap_cons, List.filterMap_cons]
    match hm : mf.meta with
    | none => exact ih
    | some m =>
      simp only [Option.map_some']
      rw [List.map_cons, List.map_cons, ih]
      rfl

/-- A trivial parsed metadata record used by the concrete claim inputs:
only the fields under test are non-empty. -/
def mkPlainMeta (title page_title : Str) : Meta :=
  { title := title, links_webui := [], page_link := [], page_title := page_title,
    container := [], page_id := [], version_when := [], version_username := [],
    version_displayName := none, fileSize := 0, body_text := [] }

/-- Rebuild input with one space `"S"` holding one parseable metadata
file with the given title, no applications. -/
def oneFileInput (title : Str) : RebuildInput :=
  { appNames := [], metadataRootExists := true,
    spaces := [(lit "S", [{ meta := some (mkPlainMeta title []), drawioText := none }])] }

/-- C3: the claim says that after every completed rebuild the relational
row count equals the text-index document count.  The code never wipes
the Whoosh index (`init_index` only creates it when missing, and the
writer only adds documents), so a second rebuild over the same single
metadata file leaves 1 relational row but 2 index documents.  This
theorem evaluates the model at that failing input. -/
theorem C3_second_rebuild_count_mismatch :
    (index_all_diagrams (index_all_diagrams initialStores (oneFileInput (lit "d"))).stores
        (oneFileInput (lit "d"))).stores.dbDiagrams.length = 1 ∧
    (index_all_diagrams (index_all_diagrams initialStores (oneFileInput (lit "d"))).stores
        (oneFileInput (lit "d"))).stores.idxDocs.length = 2 := by decide

/-- C4 counterexample: a metadata file whose title is empty is not
skipped — the rebuild inserts a diagram row whose name is the empty
string and indexes it, contradicting the claimed empty-name skip. -/
theorem C4_empty_name_not_skipped :
    ((index_all_diagrams initialStores (oneFileInput [])).stores.dbDiagrams.map
        fun dr => dr.2.diagram_name) = [[]] ∧
    (index_all_diagrams initialStores (oneFileInput [])).stores.idxDocs.length = 1 ∧
    (index_all_diagrams initialStores (oneFileInput [])).returned = 1 := by decide

/-- C4 amended: there is no empty-name skip.  Every successfully parsed
metadata record is inserted into the relational store and added to the
text index, regardless of whether its normalized name is empty: on the
normal path the row count is exactly the parsed-file count (and the
index gains exactly that many documents); the early-return path leaves
the prior stores. -/
theorem C4_every_parsed_record_indexed (prior : Stores) (inp : RebuildInput) :
    (index_all_diagrams prior inp).stores.dbDiagrams.length
        = (if inp.metadataRootExists then parsedCount inp else prior.dbDiagrams.length) ∧
    (index_all_diagrams prior inp).stores.idxDocs.length
        = prior.idxDocs.length
          + (if inp.metadataRootExists then parsedCount inp else 0) := by
  cases hroot : inp.metadataRootExists
  · rw [index_all_diagrams_no_root _ _ hroot]
    exact ⟨rfl, by simp⟩
  · rw [index_all_diagrams_root _ _ hroot]
    constructor
    · dsimp only
      rw [List.enumFrom_length, rebuildRows_length, if_pos rfl]
    · dsimp only
      rw [List.length_append, List.length_map, List.enumFrom_length, rebuildRows_length,
        if_pos rfl]

/-- C5: a Shape A metadata record whose web-UI link is
`"/display/TEAM/My+Page?x=1"` and that has no direct title field
normalizes to `source_title = "My Page"` (URL-decoded, `+` → space,
segment after the display path marker) and
`source_url = "/display/TEAM/My+Page"` (query string stripped). -/
theorem C5_shape_a_title_and_url :
    (mkRecord (lit "TEAM")
        { mkPlainMeta (lit "X") [] with links_webui := lit "/display/TEAM/My+Page?x=1" }
        none).page_title = lit "My Page" ∧
    (mkRecord (lit "TEAM")
        { mkPlainMeta (lit "X") [] with links_webui := lit "/display/TEAM/My+Page?x=1" }
        none).confluence_page_url = lit "/display/TEAM/My+Page" := by decide

/-- C6 counterexample: on the early-return path (metadata root
missing), `index_all_diagrams` returns before `conn.commit()` and
`writer.commit()`: neither store is committed, and the prior stores
survive untouched (the open transaction rolls back). -/
theorem C6_early_return_commits_nothing :
    (index_all_diagrams initialStores
        { appNames := [], metadataRootExists := false, spaces := [] }).dbCommitted = false ∧
    (index_all_diagrams initialStores
        { appNames := [], metadataRootExists := false, spaces := [] }).idxCommitted = false ∧
    (index_all_diagrams initialStores
        { appNames := [], metadataRootExists := false, spaces := [] }).stores
      = initialStores := by decide

/-- C6 amended: the two writers are committed exactly on the normal
exit path; the early return taken when the metadata root does not exist
commits neither. -/
theorem C6_commit_iff_root_exists (prior : Stores) (inp : RebuildInput) :
    (index_all_diagrams prior inp).dbCommitted = inp.metadataRootExists ∧
    (index_all_diagrams prior inp).idxCommitted = inp.metadataRootExists := by
  cases hroot : inp.metadataRootExists
  · rw [index_all_diagrams_no_root _ _ hroot]
    exact ⟨rfl, rfl⟩
  · rw [index_all_diagrams_root _ _ hroot]
    exact ⟨rfl, rfl⟩

/-- What the claim C10 states, word for word: one trailing `".png"`
suffix removed when the title ends with it. -/
def specStripOneSuffix (title : Str) : Str :=
  if (lit ".png").isSuffixOf title then title.take (title.length - 4) else title

/-- What the code computes (`app.py:315`):
`title.replace('.png', '')` — every occurrence removed — when the
title ends with `".png"`. -/
def normalizeTitle (title : Str) : Str :=
  if (lit ".png").isSuffixOf title then pyReplace (lit ".png") [] title else title

/-- C10 counterexample: for the title `"a.png.png"` the code stores the
name `"a"` (`replace` removes every occurrence of `".png"`), while the
claim's one-trailing-suffix removal would give `"a.png"`. -/
theorem C10_replace_removes_all_occurrences :
    ((index_all_diagrams initialStores (oneFileInput (lit "a.png.png"))).stores.dbDiagrams.map
        fun dr => dr.2.diagram_name) = [lit "a"] ∧
    specStripOneSuffix (lit "a.png.png") = lit "a.png" ∧
    lit "a" ≠ lit "a.png" := by decide

/-- C10 amended: for every metadata record processed during a rebuild,
the stored record name equals the metadata title with **every**
occurrence of `".png"` removed when the title ends with `".png"`, and
the title unchanged otherwise. -/
theorem C10_stored_names (prior : Stores) (inp : RebuildInput)
    (h : inp.metadataRootExists = true) :
    ((index_all_diagrams prior inp).stores.dbDiagrams.map fun dr => dr.2.diagram_name)
      = (parsedMetas inp).map fun m => normalizeTitle m.title := by
  rw [index_all_diagrams_root _ _ h]
  dsimp only
  have h1 : ((List.enumFrom prior.nextDiagramId (rebuildRows inp)).map
        fun dr => dr.2.diagram_name)
      = (rebuildRows inp).map fun r => r.diagram_name := by
    rw [show (fun dr : Nat × Record => dr.2.diagram_name)
        = (fun r : Record => r.diagram_name) ∘ Prod.snd from rfl]
    rw [← List.map_map, List.enumFrom_map_snd]
  rw [h1]
  unfold rebuildRows parsedMetas
  rw [List.map_flatMap, List.map_flatMap]
  simp only [recordsOf_names, normalizeTitle]

/-- Witness for the amended C10 at a concrete rebuild input. -/
theorem C10_stored_names_witness :
    ((index_all_diagrams initialStores (oneFileInput (lit "a.png.png"))).stores.dbDiagrams.map
        fun dr => dr.2.diagram_name)
      = (parsedMetas (oneFileInput (lit "a.png.png"))).map fun m => normalizeTitle m.title :=
  C10_stored_names initialStores (oneFileInput (lit "a.png.png")) (by decide)

/-! ## Lemmas about the query engine -/

lemma searchRoute_empty_query (st : Stores) (matchQ : IdxDoc → Bool) (queryRaw : Str)
    (page : Nat) (g : Bool) (hq : pyStrip queryRaw = []) :
    searchRoute st matchQ queryRaw page g
      = { results := [], pageIds := [], total := some 0, totalPages := none, error := none } := by
  unfold searchRoute
  rw [if_pos hq]

lemma searchRoute_not_ready (st : Stores) (matchQ : IdxDoc → Bool) (queryRaw : Str)
    (page : Nat) (g : Bool) (hq : pyStrip queryRaw ≠ []) (hidx : index_is_populated st = false) :
    searchRoute st matchQ queryRaw page g
      = { results := [], pageIds := [], total := none, totalPages := none,
          error := some errIndexNotBuilt } := by
  unfold searchRoute
  rw [if_neg hq, if_pos (by rw [hidx]; simp)]

lemma searchRoute_main (st : Stores) (matchQ : IdxDoc → Bool) (queryRaw : Str)
    (page : Nat) (g : Bool) (hq : pyStrip queryRaw ≠ []) (hpop : index_is_populated st = true) :
    searchRoute st matchQ queryRaw page g
      = { results := st.dbDiagrams.filter fun dr =>
            (if g then (filteredHits st matchQ).map (fun d => d.docId)
             else ((((filteredHits st matchQ).map fun d => d.docId).drop
                ((page - 1) * 50)).take 50)).contains dr.1
          pageIds := if g then (filteredHits st matchQ).map (fun d => d.docId)
            else ((((filteredHits st matchQ).map fun d => d.docId).drop
              ((page - 1) * 50)).take 50)
          total := some (filteredHits st matchQ).length
          totalPages := some (((filteredHits st matchQ).length + 50 - 1) / 50)
          error := none } := by
  unfold searchRoute
  rw [if_neg hq, if_neg (by rw [hpop]; simp)]
  dsimp only
  have hfst : ((filteredHits st matchQ).map fun d => (d.docId, d.space_key)).map
      (fun r => r.1) = (filteredHits st matchQ).map fun d => d.docId := by
    rw [List.map_map]
    rfl
  have hlen : ((filteredHits st matchQ).map fun d => (d.docId, d.space_key)).length
      = (filteredHits st matchQ).length := List.length_map _ _
  rw [hlen, List.map_take, List.map_drop, hfst]

lemma chunks50 {α : Type} : ∀ (n : Nat) (l : List α), l.length ≤ n →
    (List.range ((l.length + 50 - 1) / 50)).flatMap (fun i => (l.drop (i * 50)).take 50)
      = l := by
  intro n
  induction n with
  | zero =>
    intro l hl
    have h0 : l = [] := List.eq_nil_of_length_eq_zero (by omega)
    subst h0
    simp
  | succ n ih =>
    intro l hl
    by_cases h0 : l.length = 0
    · have hnil : l = [] := List.eq_nil_of_length_eq_zero h0
      subst hnil
      simp
    · have hsplit : (l.length + 50 - 1) / 50 = ((l.drop 50).length + 50 - 1) / 50 + 1 := by
        rw [List.length_drop]
        omega
      rw [hsplit, List.range_succ_eq_map, List.flatMap_cons, List.flatMap_map]
      have harg : ∀ i : Nat, ((l.drop (Nat.succ i * 50)).take 50)
          = (((l.drop 50).drop (i * 50)).take 50) := by
        intro i
        rw [List.drop_drop]
        congr 2
        omega
      rw [funext harg]
      rw [ih (l.drop 50) (by rw [List.length_drop]; omega)]
      rw [Nat.zero_mul, List.drop_zero]
      exact List.take_append_drop 50 l

/-- C7: a search whose stripped query text is empty, and a search over
an operational (populated) index whose query matches no document, both
render an empty result page with a reported total of 0 and no error.
(An unpopulated index instead takes the not-ready path of C8.) -/
theorem C7_zero_results_no_error (st : Stores) (matchQ : IdxDoc → Bool) (queryRaw : Str)
    (page : Nat) (g : Bool)
    (h : pyStrip queryRaw = []
      ∨ (index_is_populated st = true ∧ ∀ d ∈ st.idxDocs, matchQ d = false)) :
    (searchRoute st matchQ queryRaw page g).results = [] ∧
    (searchRoute st matchQ queryRaw page g).total = some 0 ∧
    (searchRoute st matchQ queryRaw page g).error = none := by
  by_cases hq : pyStrip queryRaw = []
  · rw [searchRoute_empty_query st matchQ queryRaw page g hq]
    exact ⟨rfl, rfl, rfl⟩
  · rcases h with h | ⟨hpop, hzero⟩
    · exact absurd h hq
    · rw [searchRoute_main st matchQ queryRaw page g hq hpop]
      have hfil : filteredHits st matchQ = [] := by
        unfold filteredHits
        rw [List.filter_eq_nil_iff.mpr (by intro a ha; rw [hzero a ha]; simp)]
        rfl
      rw [hfil]
      refine ⟨?_, rfl, rfl⟩
      dsimp only
      rw [List.filter_eq_nil_iff]
      intro dr _
      cases g <;> simp

/-- Witness for C7: the empty-query case (whitespace-only text) on
fresh stores. -/
theorem C7_zero_results_no_error_witness :
    (searchRoute initialStores (fun _ => false) (lit "  ") 1 false).results = [] ∧
    (searchRoute initialStores (fun _ => false) (lit "  ") 1 false).total = some 0 ∧
    (searchRoute initialStores (fun _ => false) (lit "  ") 1 false).error = none :=
  C7_zero_results_no_error initialStores (fun _ => false) (lit "  ") 1 false
    (Or.inl (by decide))

/-- C8: when the text index holds no documents (in particular when no
successful rebuild has ever populated it), every search with non-empty
query text is answered with the distinct "index not ready" error — not
an empty-result success (no total is reported) and not a crash (the
route is a total function). -/
theorem C8_not_ready_error (st : Stores) (matchQ : IdxDoc → Bool) (queryRaw : Str)
    (page : Nat) (g : Bool) (hidx : st.idxDocs = []) (hq : pyStrip queryRaw ≠ []) :
    (searchRoute st matchQ queryRaw page g).error = some errIndexNotBuilt ∧
    (searchRoute st matchQ queryRaw page g).results = [] ∧
    (searchRoute st matchQ queryRaw page g).total = none := by
  rw [searchRoute_not_ready st matchQ queryRaw page g hq
    (by unfold index_is_populated; rw [hidx]; rfl)]
  exact ⟨rfl, rfl, rfl⟩

/-- Witness for C8: a non-empty query against fresh (never rebuilt)
stores. -/
theorem C8_not_ready_error_witness :
    (searchRoute initialStores (fun _ => false) (lit "x") 1 false).error
        = some errIndexNotBuilt ∧
    (searchRoute initialStores (fun _ => false) (lit "x") 1 false).results = [] ∧
    (searchRoute initialStores (fun _ => false) (lit "x") 1 false).total = none :=
  C8_not_ready_error initialStores (fun _ => false) (lit "x") 1 false rfl (by decide)

/-- C9: in ungrouped search with page size 50 and filtered hit total
`n`, the reported total is the filtered hit count before pagination,
the reported number of pages is `⌈n/50⌉`, and concatenating the id
pages for pages `1, 2, …` in order reproduces the full filtered hit id
list — no duplicates, no omissions. -/
theorem C9_pagination (st : Stores) (matchQ : IdxDoc → Bool) (queryRaw : Str) (page : Nat)
    (hq : pyStrip queryRaw ≠ []) (hpop : index_is_populated st = true) :
    (searchRoute st matchQ queryRaw page false).total
        = some (filteredHits st matchQ).length ∧
    (searchRoute st matchQ queryRaw page false).totalPages
        = some ((filteredHits st matchQ).length ⌈/⌉ 50) ∧
    (List.range ((filteredHits st matchQ).length ⌈/⌉ 50)).flatMap
        (fun i => (searchRoute st matchQ queryRaw (i + 1) false).pageIds)
      = (filteredHits st matchQ).map fun d => d.docId := by
  refine ⟨?_, ?_, ?_⟩
  · rw [searchRoute_main st matchQ queryRaw page false hq hpop]
  · rw [Nat.ceilDiv_eq_add_pred_div, searchRoute_main st matchQ queryRaw page false hq hpop]
  · have hpids : ∀ i : Nat, (searchRoute st matchQ queryRaw (i + 1) false).pageIds
        = ((((filteredHits st matchQ).map fun d => d.docId).drop (i * 50)).take 50) := by
      intro i
      rw [searchRoute_main st matchQ queryRaw (i + 1) false hq hpop]
      dsimp only
      rw [if_neg (by simp)]
      norm_num
    rw [funext hpids]
    rw [Nat.ceilDiv_eq_add_pred_div]
    rw [show (filteredHits st matchQ).length
        = ((filteredHits st matchQ).map fun d => d.docId).length by rw [List.length_map]]
    exact chunks50 _ _ (Nat.le_refl _)

/-- Witness for C9: two documents, both matching, on page 1. -/
theorem C9_pagination_witness :
    (searchRoute (index_all_diagrams initialStores (oneFileInput (lit "d"))).stores
        (fun _ => true) (lit "d") 1 false).total
        = some (filteredHits
            (index_all_diagrams initialStores (oneFileInput (lit "d"))).stores
            (fun _ => true)).length ∧
    (searchRoute (index_all_diagrams initialStores (oneFileInput (lit "d"))).stores
        (fun _ => true) (lit "d") 1 false).totalPages
        = some ((filteredHits
            (index_all_diagrams initialStores (oneFileInput (lit "d"))).stores
            (fun _ => true)).length ⌈/⌉ 50) ∧
    (List.range ((filteredHits
          (index_all_diagrams initialStores (oneFileInput (lit "d"))).stores
          (fun _ => true)).length ⌈/⌉ 50)).flatMap
        (fun i => (searchRoute
            (index_all_diagrams initialStores (oneFileInput (lit "d"))).stores
            (fun _ => true) (lit "d") (i + 1) false).pageIds)
      = (filteredHits (index_all_diagrams initialStores (oneFileInput (lit "d"))).stores
          (fun _ => true)).map fun d => d.docId :=
  C9_pagination (index_all_diagrams initialStores (oneFileInput (lit "d"))).stores
    (fun _ => true) (lit "d") 1 (by decide) (by decide)

/-! ## Lemmas about application matching -/

lemma mapInsert_append : ∀ (m : List (Str × Nat)) (k : Str) (v : Nat),
    k ∉ m.map Prod.fst → mapInsert m k v = m ++ [(k, v)]
  | [], _, _, _ => rfl
  | (k', v') :: t, k, v, h => by
    rw [List.map_cons] at h
    have hk : k' ≠ k := fun he => h (by rw [he]; exact List.mem_cons_self _ _)
    rw [mapInsert.eq_def]
    dsimp only
    rw [if_neg hk, mapInsert_append t k v (fun hm => h (List.mem_cons_of_mem _ hm))]
    rfl

lemma foldl_mapInsert_eq : ∀ (rows : List (Nat × Str)) (acc : List (Str × Nat)),
    (acc.map Prod.fst ++ rows.map fun e => asciiLower e.2).Nodup →
    rows.foldl (fun mm e => mapInsert mm (asciiLower e.2) e.1) acc
      = acc ++ rows.map fun e => (asciiLower e.2, e.1) := by
  intro rows
  induction rows with
  | nil => intro acc _; simp
  | cons e rest ih =>
    intro acc h
    rw [List.foldl_cons]
    have hnotin : asciiLower e.2 ∉ acc.map Prod.fst := by
      intro hmem
      rw [List.map_cons] at h
      have hd := List.disjoint_of_nodup_append h
      exact hd hmem (List.mem_cons_self _ _)
    rw [mapInsert_append acc (asciiLower e.2) e.1 hnotin]
    rw [ih (acc ++ [(asciiLower e.2, e.1)]) (by
      rw [List.map_cons] at h
      rw [List.map_append, List.append_assoc]
      simpa using h)]
    simp

lemma appRows_lower_names (prior : Stores) (inp : RebuildInput) :
    ((appRowsOf prior inp).map fun e => asciiLower e.2) = inp.appNames.map asciiLower := by
  unfold appRowsOf
  rw [List.map_map]
  have : ((fun e : Nat × Str => asciiLower e.2) ∘ fun p : Nat × Str => (prior.nextAppId + p.1, p.2))
      = (fun p : Nat × Str => asciiLower p.2) := rfl
  rw [this, show (fun p : Nat × Str => asciiLower p.2) = asciiLower ∘ Prod.snd from rfl,
    ← List.map_map, List.enum_map_snd]

lemma appMapOf_eq (prior : Stores) (inp : RebuildInput)
    (h : (inp.appNames.map asciiLower).Nodup) :
    appMapOf prior inp = (appRowsOf prior inp).map fun e => (asciiLower e.2, e.1) := by
  unfold appMapOf
  rw [foldl_mapInsert_eq (appRowsOf prior inp) [] (by
    rw [List.map_nil, List.nil_append, appRows_lower_names]
    exact h)]
  rfl

lemma appRows_ids (prior : Stores) (inp : RebuildInput) :
    ((appRowsOf prior inp).map Prod.fst).Nodup := by
  unfold appRowsOf
  rw [List.map_map]
  have : (Prod.fst ∘ fun p : Nat × Str => (prior.nextAppId + p.1, p.2))
      = (fun p : Nat × Str => prior.nextAppId + p.1) := rfl
  rw [this, show (fun p : Nat × Str => prior.nextAppId + p.1)
      = (fun i => prior.nextAppId + i) ∘ Prod.fst from rfl, ← List.map_map,
    List.enum_map_fst]
  exact (List.nodup_range _).map fun a b hab => by omega

lemma fst_nodup_unique {β : Type} : ∀ {l : List (Nat × β)}, (l.map Prod.fst).Nodup →
    ∀ {a : Nat} {b c : β}, (a, b) ∈ l → (a, c) ∈ l → b = c := by
  intro l
  induction l with
  | nil => intro _ a b c hb _; simp at hb
  | cons x t ih =>
    intro h a b c hb hc
    rw [List.map_cons, List.nodup_cons] at h
    rcases List.mem_cons.mp hb with hb1 | hb1 <;> rcases List.mem_cons.mp hc with hc1 | hc1
    · have h12 := hb1.trans hc1.symm
      simp only [Prod.mk.injEq, true_and] at h12
      exact h12
    · exfalso
      apply h.1
      rw [← hb1]
      exact List.mem_map.mpr ⟨(a, c), hc1, rfl⟩
    · exfalso
      apply h.1
      rw [← hc1]
      exact List.mem_map.mpr ⟨(a, b), hb1, rfl⟩
    · exact ih h.2 hb1 hc1

lemma mem_appLinksFor {appMap : List (Str × Nat)} {did : Nat} {r : Record} {d a : Nat} :
    (d, a) ∈ appLinksFor appMap did r
      ↔ d = did ∧ ∃ e ∈ appMap, e.2 = a ∧ pyIn e.1 (searchable r) = true := by
  unfold appLinksFor
  rw [List.mem_filterMap]
  constructor
  · rintro ⟨e, he, heq⟩
    by_cases hin : pyIn e.1 (searchable r) = true
    · rw [if_pos hin] at heq
      injection heq with h1
      injection h1 with hd2 ha2
      exact ⟨hd2.symm, e, he, ha2, hin⟩
    · rw [if_neg hin] at heq
      exact absurd heq (by simp)
  · rintro ⟨hd, e, he, ha, hin⟩
    exact ⟨e, he, by rw [if_pos hin, hd, ha]⟩

/-- C2 amended: during a rebuild with the metadata root present and
configured application names pairwise distinct after lowercasing (a
duplicate lowercased name would make the id map collapse entries; an
exact duplicate violates the UNIQUE constraint), a DiagramApplication
link between an inserted diagram row and an application row exists if
and only if the application's lowercased name is a substring of the
lowercased **space-joined** concatenation of the record's name, source
title and content text (`' '.join([...]).lower()`). -/
theorem C2_app_link_iff (prior : Stores) (inp : RebuildInput)
    (hroot : inp.metadataRootExists = true)
    (hnodup : (inp.appNames.map asciiLower).Nodup)
    (did aid : Nat) (r : Record) (aname : Str)
    (hd : (did, r) ∈ (index_all_diagrams prior inp).stores.dbDiagrams)
    (ha : (aid, aname) ∈ (index_all_diagrams prior inp).stores.dbApplications) :
    (did, aid) ∈ (index_all_diagrams prior inp).stores.dbLinks
      ↔ pyIn (asciiLower aname) (searchable r) = true := by
  rw [index_all_diagrams_root _ _ hroot] at hd ha ⊢
  dsimp only at hd ha ⊢
  have hids : ((List.enumFrom prior.nextDiagramId (rebuildRows inp)).map Prod.fst).Nodup := by
    rw [List.enumFrom_map_fst]
    exact List.nodup_range' _ _
  constructor
  · intro hlink
    rw [List.mem_flatMap] at hlink
    obtain ⟨dr, hdr, hlf⟩ := hlink
    rw [mem_appLinksFor] at hlf
    obtain ⟨hdd, e, he, hea, hein⟩ := hlf
    have hdr2 : r = dr.2 := by
      refine fst_nodup_unique hids hd ?_
      rw [hdd]
      exact hdr
    rw [appMapOf_eq _ _ hnodup] at he
    rw [List.mem_map] at he
    obtain ⟨row, hrow, hrowe⟩ := he
    have hrowid : row.1 = aid := by rw [← hea, ← hrowe]
    have hrowname : aname = row.2 := by
      refine fst_nodup_unique (appRows_ids prior inp) ha ?_
      rw [← hrowid]
      exact hrow
    have he1 : e.1 = asciiLower aname := by
      rw [← hrowe]
      dsimp only
      rw [hrowname]
    rw [← hdr2, he1] at hein
    exact hein
  · intro hmatch
    rw [List.mem_flatMap]
    refine ⟨(did, r), hd, ?_⟩
    rw [mem_appLinksFor]
    refine ⟨rfl, (asciiLower aname, aid), ?_, rfl, hmatch⟩
    rw [appMapOf_eq _ _ hnodup, List.mem_map]
    exact ⟨(aid, aname), ha, rfl⟩

/-- The rebuild input of the C2 counterexample: one configured
application named `"a b"`, one metadata record normalizing to name
`"a"` and source title `"b"` (content empty). -/
def c2Input : RebuildInput :=
  { appNames := [lit "a b"], metadataRootExists := true,
    spaces := [(lit "S", [{ meta := some (mkPlainMeta (lit "a") (lit "b")),
                            drawioText := none }])] }

/-- The application-match criterion exactly as the claim words it: the
lowercased name a substring of the lowercased plain (separator-free)
concatenation of the record's name, source title and content text. -/
def specConcatMatch (appName : Str) (r : Record) : Bool :=
  pyIn (asciiLower appName) (asciiLower (r.diagram_name ++ r.page_title ++ r.content_text))

/-- C2 counterexample: the code joins the three fields with spaces
(`' '.join`), so the application `"a b"` matches the record with name
`"a"` and title `"b"` and a link is created — although `"a b"` is not a
substring of the plain concatenation `"ab"` that the claim describes. -/
theorem C2_counterexample_space_join :
    (index_all_diagrams initialStores c2Input).stores.dbLinks = [(1, 1)] ∧
    ((index_all_diagrams initialStores c2Input).stores.dbDiagrams.map
        fun dr => specConcatMatch (lit "a b") dr.2) = [false] := by decide

/-- Witness for the amended C2 at the concrete counterexample input. -/
theorem C2_app_link_iff_witness :
    (1, 1) ∈ (index_all_diagrams initialStores c2Input).stores.dbLinks
      ↔ pyIn (asciiLower (lit "a b"))
          (searchable (mkRecord (lit "S") (mkPlainMeta (lit "a") (lit "b")) none)) = true :=
  C2_app_link_iff initialStores c2Input (by decide) (by decide) 1 1
    (mkRecord (lit "S") (mkPlainMeta (lit "a") (lit "b")) none) (lit "a b")
    (by decide) (by decide)
